import Mathlib

/-!
Shallow embedding of the distance-vector routing engine in `src/router.py`
(class `Router`): the routing-table data model, the Bellman-Ford merge rule
(`update_routing_table`), neighbor and virtual-interface management
(`add_neighbor`, `start_interface`, `stop_interface`), the send/receive steps
of the periodic loop (`send_routing_table`, `receive_routing_table`) and the
lifecycle operations (`start`, `stop`).

Python dictionaries are modelled as insertion-ordered association lists
(`dictGet` / `dictSet` below) where the engine iterates over them, and the
routing table itself as a function `String → Option (Nat × String)` since the
merge rule only ever looks entries up by key and overwrites single keys.
Costs are the non-negative integers of the configuration files (`Nat`).
-/

/-- A routing table: destination name ↦ `(cost, next_hop)`.
Mirrors `self.routing_table` of `Router`. -/
abbrev RTable := String → Option (Nat × String)

/-- The wire form of a routing table as it arrives in a decoded advertisement
message: the JSON object `{dest: [cost, next_hop], ...}` iterated by
`update_routing_table`, i.e. an association list with (in practice) unique
keys. -/
abbrev NTable := List (String × (Nat × String))

/-- Point update of a routing table: `self.routing_table[destination] = v`. -/
def tableSet (t : RTable) (d : String) (v : Nat × String) : RTable :=
  fun x => if x = d then some v else t x

/-- The guard of the merge rule, `router.py` line 178:
`destination not in self.routing_table or new_cost < self.routing_table[destination][0]`. -/
def mergeCond (t : RTable) (d : String) (new_cost : Nat) : Bool :=
  match t d with
  | none => true
  | some cur => decide (new_cost < cur.1)

/-- One iteration of the `for destination, (neighbor_cost, _) in
neighbor_table.items()` loop of `Router.update_routing_table`: the accumulator
carries the `updated` flag and the routing table being mutated in place. -/
def mergeStep (link_cost : Nat) (neighbor_name : String)
    (acc : Bool × RTable) (e : String × (Nat × String)) : Bool × RTable :=
  let new_cost := link_cost + e.2.1
  if mergeCond acc.2 e.1 new_cost then
    (true, tableSet acc.2 e.1 (new_cost, neighbor_name))
  else acc

/-- The whole loop of `Router.update_routing_table`, as structural recursion
over the received table's entries (Python's `for` over the dict items). -/
def mergeLoop (link_cost : Nat) (neighbor_name : String)
    (neighbor_table : NTable) (acc : Bool × RTable) : Bool × RTable :=
  match neighbor_table with
  | [] => acc
  | e :: rest => mergeLoop link_cost neighbor_name rest (mergeStep link_cost neighbor_name acc e)

/-- `Router.update_routing_table(neighbor_name, neighbor_table)` (lines
167-183), given the stored link cost `self.neighbors[neighbor_name][1]`:
returns the `updated` flag (the code only logs it) and the mutated table. -/
def update_routing_table (link_cost : Nat) (neighbor_name : String)
    (neighbor_table : NTable) (routing_table : RTable) : Bool × RTable :=
  mergeLoop link_cost neighbor_name neighbor_table (false, routing_table)

/-- Lookup in an insertion-ordered association list: Python `d[k]` / `d.get(k)`. -/
def dictGet {α β : Type} [DecidableEq α] (l : List (α × β)) (k : α) : Option β :=
  match l with
  | [] => none
  | e :: rest => if e.1 = k then some e.2 else dictGet rest k

/-- Assignment `d[k] = v` on an insertion-ordered association list: replaces the
value in place when the key is present, appends at the end otherwise. -/
def dictSet {α β : Type} [DecidableEq α] (l : List (α × β)) (k : α) (v : β) : List (α × β) :=
  match l with
  | [] => [(k, v)]
  | e :: rest => if e.1 = k then (k, v) :: dictSet rest k v else e :: dictSet rest k v

/-- The state of one `Router` instance. `neighbors` is the dict
`{name: (port, cost)}`, `interfaces` the dict `{port: active}`. `threads`
counts the loop threads spawned so far by `threading.Thread(...).start()`
inside `Router.start` (the Python object does not store them, but each call
creates one). -/
structure Router where
  name : String
  port : Nat
  neighbors : List (String × (Nat × Nat))
  routing_table : RTable
  running : Bool
  reporting : Bool
  interfaces : List (Nat × Bool)
  threads : Nat

/-- `Router.__init__(name, port, neighbors)`: routing table seeded with the
self entry `{name: (0, name)}`, every interface inactive, not running. -/
def mkRouter (name : String) (port : Nat) (neighbors : List (String × (Nat × Nat))) : Router :=
  { name := name
    port := port
    neighbors := neighbors
    routing_table := tableSet (fun _ => none) name (0, name)
    running := false
    reporting := false
    interfaces := neighbors.foldl (fun acc e => dictSet acc e.2.1 false) []
    threads := 0 }

/-- `self.interfaces.get(port, False)`, the idiom used at `router.py` line 139
(and by the display code); the spec's `isInterfaceActive`. -/
def isInterfaceActive (r : Router) (p : Nat) : Bool :=
  (dictGet r.interfaces p).getD false

/-- `Router.start_interface(interface_port)` (lines 112-121): activates the
interface when it exists, otherwise only logs an error. -/
def start_interface (r : Router) (p : Nat) : Router :=
  if (dictGet r.interfaces p).isSome then
    { r with interfaces := dictSet r.interfaces p true }
  else r

/-- `Router.stop_interface(interface_port)` (lines 123-132). -/
def stop_interface (r : Router) (p : Nat) : Router :=
  if (dictGet r.interfaces p).isSome then
    { r with interfaces := dictSet r.interfaces p false }
  else r

/-- `Router.add_neighbor(neighbor_name, neighbor_port, cost)` (lines 221-231):
unconditionally sets `neighbors[name] = (port, cost)`,
`routing_table[name] = (cost, name)` and `interfaces[port] = False`. -/
def add_neighbor (r : Router) (neighbor_name : String) (neighbor_port cost : Nat) : Router :=
  { r with
    neighbors := dictSet r.neighbors neighbor_name (neighbor_port, cost)
    routing_table := tableSet r.routing_table neighbor_name (cost, neighbor_name)
    interfaces := dictSet r.interfaces neighbor_port false }

/-- `Router.start` (lines 185-198): sets the flag and unconditionally spawns a
fresh daemon thread running the periodic loop. -/
def start (r : Router) : Router :=
  { r with running := true, threads := r.threads + 1 }

/-- `Router.stop` (lines 200-205): only flips the flag. -/
def stop (r : Router) : Router :=
  { r with running := false }

/-- A decoded advertisement message `{'sender': ..., 'routing_table': ...}`. -/
structure InMessage where
  sender : String
  routing_table : NTable

/-- `Router.send_routing_table` (lines 134-147): for every neighbor whose
interface is active, a datagram carrying the sender name and the current table
snapshot goes out to the neighbor's port; inactive interfaces are skipped.
The result is the list of `(destination_port, sender, payload)` sends of one
cycle. -/
def send_routing_table (r : Router) : List (Nat × String × RTable) :=
  r.neighbors.filterMap (fun e =>
    if (dictGet r.interfaces e.2.1).getD false then
      some (e.2.1, r.name, r.routing_table)
    else none)

/-- `Router.receive_routing_table` (lines 149-165). `none` stands for the
`BlockingIOError` path (no datagram queued) and for an undecodable datagram
(`json.loads` failure, caught by the bare `except`): both leave the router
unchanged. When the sender is not a key of `self.neighbors`, the lookup
`self.neighbors[neighbor_name][1]` raises `KeyError` before any mutation and
the `except` clause swallows it, so the router is again unchanged. -/
def receive_routing_table (r : Router) (incoming : Option InMessage) : Router :=
  match incoming with
  | none => r
  | some msg =>
    match dictGet r.neighbors msg.sender with
    | none => r
    | some nb =>
      { r with routing_table :=
          (update_routing_table nb.2 msg.sender msg.routing_table r.routing_table).2 }

/-- One iteration of the `while self.running` loop body in `Router.start`
(lines 192-196): first send to every active interface, then one non-blocking
receive attempt. -/
def loop_cycle (r : Router) (incoming : Option InMessage) :
    List (Nat × String × RTable) × Router :=
  (send_routing_table r, receive_routing_table r incoming)

/-- The engine operations a collaborator can interleave on a live router. -/
inductive Op where
  | recv (incoming : Option InMessage)
  | addNeighbor (name : String) (port cost : Nat)
  | startIf (port : Nat)
  | stopIf (port : Nat)
  | startRouter
  | stopRouter

/-- Apply one operation to a router. -/
def applyOp (r : Router) : Op → Router
  | .recv incoming => receive_routing_table r incoming
  | .addNeighbor n p c => add_neighbor r n p c
  | .startIf p => start_interface r p
  | .stopIf p => stop_interface r p
  | .startRouter => start r
  | .stopRouter => stop r

/-- Apply a sequence of operations, left to right. -/
def applyOps (r : Router) (ops : List Op) : Router :=
  match ops with
  | [] => r
  | op :: rest => applyOps (applyOp r op) rest

example :
    (update_routing_table 1 "B" [("C", (1, "C"))]
      (tableSet (fun _ => none) "A" (0, "A"))).2 "C" = some (2, "B") := by decide

example :
    (add_neighbor (mkRouter "A" 5000 []) "D" 9000 5).routing_table "D" = some (5, "D") := by
  decide

/-! ### Helper lemmas about the merge loop -/

theorem tableSet_self (t : RTable) (d : String) (v : Nat × String) :
    tableSet t d v d = some v := by
  simp [tableSet]

theorem tableSet_ne (t : RTable) (d x : String) (v : Nat × String) (h : x ≠ d) :
    tableSet t d v x = t x := by
  simp [tableSet, h]

theorem mergeCond_of_none {t : RTable} {d : String} (h : t d = none) (nc : Nat) :
    mergeCond t d nc = true := by
  simp [mergeCond, h]

theorem mergeCond_of_some {t : RTable} {d : String} {cur : Nat × String}
    (h : t d = some cur) (nc : Nat) :
    mergeCond t d nc = decide (nc < cur.1) := by
  simp [mergeCond, h]

theorem mergeStep_eq (L : Nat) (n : String) (acc : Bool × RTable)
    (e : String × (Nat × String)) :
    mergeStep L n acc e =
      if mergeCond acc.2 e.1 (L + e.2.1) then
        (true, tableSet acc.2 e.1 (L + e.2.1, n))
      else acc := rfl

theorem mergeStep_apply_ne (L : Nat) (n : String) (acc : Bool × RTable)
    (e : String × (Nat × String)) (d : String) (hne : e.1 ≠ d) :
    (mergeStep L n acc e).2 d = acc.2 d := by
  rw [mergeStep_eq]
  split
  · exact tableSet_ne acc.2 e.1 d _ (Ne.symm hne)
  · rfl

theorem mergeLoop_cons (L : Nat) (n : String) (e : String × (Nat × String))
    (rest : NTable) (acc : Bool × RTable) :
    mergeLoop L n (e :: rest) acc = mergeLoop L n rest (mergeStep L n acc e) := rfl

/-- Destinations not mentioned in the received table are untouched. -/
theorem mergeLoop_frame (L : Nat) (n : String) (T : NTable) (d : String) :
    ∀ acc : Bool × RTable, (∀ e ∈ T, e.1 ≠ d) → (mergeLoop L n T acc).2 d = acc.2 d := by
  induction T with
  | nil => intro acc _; rfl
  | cons e rest ih =>
    intro acc h
    rw [mergeLoop_cons, ih _ fun e' he' => h e' (List.mem_cons_of_mem _ he')]
    exact mergeStep_apply_ne L n acc e d (h e (List.mem_cons_self _ _))

/-- At each destination the merge loop either leaves the entry alone or writes
a strictly cheaper entry whose next hop is the sending neighbor. -/
theorem mergeLoop_evolution (L : Nat) (n : String) (T : NTable) (d : String) :
    ∀ acc : Bool × RTable,
      (mergeLoop L n T acc).2 d = acc.2 d ∨
        ∃ c', (mergeLoop L n T acc).2 d = some (c', n) ∧
          ∀ cur, acc.2 d = some cur → c' < cur.1 := by
  induction T with
  | nil => intro acc; left; rfl
  | cons e rest ih =>
    intro acc
    rw [mergeLoop_cons]
    by_cases hd : e.1 = d
    · subst hd
      rcases Option.eq_none_or_eq_some (acc.2 e.1) with hcur | ⟨cur, hcur⟩
      · -- destination absent: the step inserts `(L + c, n)`
        have hstep : (mergeStep L n acc e).2 e.1 = some (L + e.2.1, n) := by
          rw [mergeStep_eq, if_pos (mergeCond_of_none hcur _)]
          exact tableSet_self _ _ _
        rcases ih (mergeStep L n acc e) with h | ⟨c', hc', _⟩
        · exact Or.inr ⟨L + e.2.1, h.trans hstep, fun cur hcur' => by
            rw [hcur] at hcur'; cases hcur'⟩
        · exact Or.inr ⟨c', hc', fun cur hcur' => by rw [hcur] at hcur'; cases hcur'⟩
      · by_cases hlt : L + e.2.1 < cur.1
        · -- strictly cheaper: the step overwrites
          have hstep : (mergeStep L n acc e).2 e.1 = some (L + e.2.1, n) := by
            rw [mergeStep_eq, if_pos (by rw [mergeCond_of_some hcur]; exact decide_eq_true hlt)]
            exact tableSet_self _ _ _
          rcases ih (mergeStep L n acc e) with h | ⟨c', hc', hdec⟩
          · refine Or.inr ⟨L + e.2.1, h.trans hstep, fun cur' hcur' => ?_⟩
            rw [hcur] at hcur'; cases hcur'; exact hlt
          · refine Or.inr ⟨c', hc', fun cur' hcur' => ?_⟩
            rw [hcur] at hcur'; cases hcur'
            exact (hdec _ hstep).trans hlt
        · -- not cheaper: the step keeps the accumulator
          have hstep : mergeStep L n acc e = acc := by
            rw [mergeStep_eq, if_neg (by rw [mergeCond_of_some hcur]; simpa using hlt)]
          rw [hstep]; exact ih acc
    · have hstep : (mergeStep L n acc e).2 d = acc.2 d :=
        mergeStep_apply_ne L n acc e d hd
      rcases ih (mergeStep L n acc e) with h | ⟨c', hc', hdec⟩
      · exact Or.inl (h.trans hstep)
      · exact Or.inr ⟨c', hc', fun cur hcur' => hdec cur (hstep.trans hcur')⟩

/-- After the loop, every destination mentioned in the received table has an
entry, of cost at most `link cost + advertised cost`. -/
theorem mergeLoop_upper (L : Nat) (n : String) (T : NTable) :
    ∀ acc : Bool × RTable, ∀ e ∈ T,
      ∃ cur, (mergeLoop L n T acc).2 e.1 = some cur ∧ cur.1 ≤ L + e.2.1 := by
  induction T with
  | nil => intro acc e he; cases he
  | cons f rest ih =>
    intro acc e he
    rw [mergeLoop_cons]
    rcases List.mem_cons.1 he with rfl | he'
    · -- the head entry: after the step the entry at `e.1` costs ≤ L + c
      have hstep : ∃ cur, (mergeStep L n acc e).2 e.1 = some cur ∧ cur.1 ≤ L + e.2.1 := by
        rw [mergeStep_eq]
        rcases hcur : acc.2 e.1 with _ | cur
        · rw [if_pos (mergeCond_of_none hcur _)]
          exact ⟨(L + e.2.1, n), tableSet_self _ _ _, le_refl _⟩
        · by_cases hlt : L + e.2.1 < cur.1
          · rw [if_pos (by rw [mergeCond_of_some hcur]; exact decide_eq_true hlt)]
            exact ⟨(L + e.2.1, n), tableSet_self _ _ _, le_refl _⟩
          · rw [if_neg (by rw [mergeCond_of_some hcur]; simpa using hlt)]
            exact ⟨cur, hcur, Nat.le_of_not_lt hlt⟩
      rcases hstep with ⟨cur, hcur, hle⟩
      rcases mergeLoop_evolution L n rest e.1 (mergeStep L n acc e) with h | ⟨c', hc', hdec⟩
      · exact ⟨cur, h.trans hcur, hle⟩
      · exact ⟨(c', n), hc', le_of_lt (lt_of_lt_of_le (hdec cur hcur) hle)⟩
    · exact ih (mergeStep L n acc f) e he'

theorem dictGet_dictSet_self {α β : Type} [DecidableEq α] (l : List (α × β)) (k : α) (v : β) :
    dictGet (dictSet l k v) k = some v := by
  induction l with
  | nil => simp [dictSet, dictGet]
  | cons e rest ih =>
    by_cases h : e.1 = k
    · simp [dictSet, dictGet, h]
    · simp [dictSet, dictGet, h, ih]

theorem dictGet_dictSet_ne {α β : Type} [DecidableEq α] (l : List (α × β)) (k k' : α) (v : β)
    (h : k ≠ k') : dictGet (dictSet l k v) k' = dictGet l k' := by
  induction l with
  | nil => simp [dictSet, dictGet, h]
  | cons e rest ih =>
    by_cases he : e.1 = k
    · simp [dictSet, dictGet, he, h, ih]
    · by_cases he' : e.1 = k'
      · simp [dictSet, dictGet, he, he', Ne.symm h]
      · simp [dictSet, dictGet, he, he', ih]

/-- In a received table whose keys are pairwise distinct (a decoded JSON
object), the head's key differs from every key of the tail. -/
theorem head_key_ne {e : String × (Nat × String)} {rest : NTable} {D : String}
    {v : Nat × String} (hnd : ((e :: rest).map Prod.fst).Nodup)
    (hmem : (D, v) ∈ rest) : e.1 ≠ D := by
  rw [List.map_cons, List.nodup_cons] at hnd
  intro h
  exact hnd.1 (h ▸ List.mem_map_of_mem Prod.fst hmem)

/-- A destination absent before the merge and advertised at cost `c` ends at
`(L + c, n)`: the insertion branch of the update rule. -/
theorem mergeLoop_insert (L : Nat) (n : String) (T : NTable) (D : String) (c : Nat)
    (x : String) :
    ∀ acc : Bool × RTable, acc.2 D = none → (D, (c, x)) ∈ T →
      (T.map Prod.fst).Nodup → (mergeLoop L n T acc).2 D = some (L + c, n) := by
  induction T with
  | nil => intro acc _ hmem _; cases hmem
  | cons e rest ih =>
    intro acc habs hmem hnd
    rw [mergeLoop_cons]
    rcases List.mem_cons.1 hmem with heq | hmem'
    · cases heq.symm
      have hstep : (mergeStep L n acc (D, (c, x))).2 D = some (L + c, n) := by
        rw [mergeStep_eq, if_pos (mergeCond_of_none habs _)]
        exact tableSet_self _ _ _
      have hfr : ∀ e' ∈ rest, e'.1 ≠ D := by
        rw [List.map_cons, List.nodup_cons] at hnd
        intro e' he' h
        exact hnd.1 (List.mem_map.2 ⟨e', he', h⟩)
      exact (mergeLoop_frame L n rest D _ hfr).trans hstep
    · have hne : e.1 ≠ D := head_key_ne hnd hmem'
      have habs' : (mergeStep L n acc e).2 D = none :=
        (mergeStep_apply_ne L n acc e D hne).trans habs
      have hnd' : (rest.map Prod.fst).Nodup := by
        rw [List.map_cons, List.nodup_cons] at hnd
        exact hnd.2
      exact ih _ habs' hmem' hnd'

/-- An existing entry whose cost exactly equals the candidate `L + c` is kept:
the strict `<` of the update rule rejects ties. -/
theorem mergeLoop_tie (L : Nat) (n : String) (T : NTable) (D x nh : String)
    (c c₀ : Nat) :
    ∀ acc : Bool × RTable, acc.2 D = some (c, nh) → (D, (c₀, x)) ∈ T →
      (T.map Prod.fst).Nodup → L + c₀ = c → (mergeLoop L n T acc).2 D = some (c, nh) := by
  induction T with
  | nil => intro acc _ hmem _ _; cases hmem
  | cons e rest ih =>
    intro acc hcur hmem hnd htie
    rw [mergeLoop_cons]
    rcases List.mem_cons.1 hmem with heq | hmem'
    · cases heq.symm
      have hstep : mergeStep L n acc (D, (c₀, x)) = acc := by
        rw [mergeStep_eq, if_neg]
        rw [mergeCond_of_some hcur]
        simp [htie]
      have hfr : ∀ e' ∈ rest, e'.1 ≠ D := by
        rw [List.map_cons, List.nodup_cons] at hnd
        intro e' he' h
        exact hnd.1 (List.mem_map.2 ⟨e', he', h⟩)
      rw [hstep]
      exact (mergeLoop_frame L n rest D _ hfr).trans hcur
    · have hne : e.1 ≠ D := head_key_ne hnd hmem'
      have hcur' : (mergeStep L n acc e).2 D = some (c, nh) :=
        (mergeStep_apply_ne L n acc e D hne).trans hcur
      have hnd' : (rest.map Prod.fst).Nodup := by
        rw [List.map_cons, List.nodup_cons] at hnd
        exact hnd.2
      exact ih _ hcur' hmem' hnd' htie

/-- An entry of cost `0` can never be undercut (costs are non-negative), so the
merge loop leaves it untouched. -/
theorem mergeLoop_keeps_zero (L : Nat) (n : String) (T : NTable) (d nh : String)
    (acc : Bool × RTable) (h : acc.2 d = some (0, nh)) :
    (mergeLoop L n T acc).2 d = some (0, nh) := by
  rcases mergeLoop_evolution L n T d acc with heq | ⟨c', _, hdec⟩
  · exact heq.trans h
  · exact absurd (hdec (0, nh) h) (Nat.not_lt_zero c')

/-- When every advertised destination already has a cost at most
`link cost + advertised cost`, the loop is the identity (flag included). -/
theorem mergeLoop_noop (L : Nat) (n : String) (T : NTable) :
    ∀ acc : Bool × RTable,
      (∀ e ∈ T, ∃ cur, acc.2 e.1 = some cur ∧ cur.1 ≤ L + e.2.1) →
      mergeLoop L n T acc = acc := by
  induction T with
  | nil => intro acc _; rfl
  | cons e rest ih =>
    intro acc h
    rcases h e (List.mem_cons_self _ _) with ⟨cur, hcur, hle⟩
    have hstep : mergeStep L n acc e = acc := by
      rw [mergeStep_eq, if_neg (by rw [mergeCond_of_some hcur]; simpa using Nat.not_lt.2 hle)]
    rw [mergeLoop_cons, hstep]
    exact ih acc fun e' he' => h e' (List.mem_cons_of_mem _ he')

/-! ### Router-level helper lemmas -/

theorem receive_name (r : Router) (inc : Option InMessage) :
    (receive_routing_table r inc).name = r.name := by
  cases inc with
  | none => rfl
  | some msg =>
    rcases Option.eq_none_or_eq_some (dictGet r.neighbors msg.sender) with h | ⟨nb, h⟩ <;>
      simp [receive_routing_table, h]

theorem applyOp_name (r : Router) (op : Op) : (applyOp r op).name = r.name := by
  cases op with
  | recv inc => exact receive_name r inc
  | addNeighbor n p c => rfl
  | startIf p =>
    simp only [applyOp, start_interface]
    split <;> rfl
  | stopIf p =>
    simp only [applyOp, stop_interface]
    split <;> rfl
  | startRouter => rfl
  | stopRouter => rfl

/-- Each single operation that does not add the router itself as a neighbor
preserves the self entry `table[name] = (0, name)`. -/
theorem applyOp_self (r : Router) (op : Op)
    (hop : ∀ n p c, op = Op.addNeighbor n p c → n ≠ r.name)
    (hself : r.routing_table r.name = some (0, r.name)) :
    (applyOp r op).routing_table r.name = some (0, r.name) := by
  cases op with
  | recv inc =>
    cases inc with
    | none => exact hself
    | some msg =>
      rcases Option.eq_none_or_eq_some (dictGet r.neighbors msg.sender) with h | ⟨nb, h⟩
      · simpa [applyOp, receive_routing_table, h] using hself
      · simp only [applyOp, receive_routing_table, h, update_routing_table]
        exact mergeLoop_keeps_zero nb.2 msg.sender msg.routing_table r.name r.name _ hself
  | addNeighbor n p c =>
    have hne : r.name ≠ n := Ne.symm (hop n p c rfl)
    simp only [applyOp, add_neighbor]
    rw [tableSet_ne _ _ _ _ hne]
    exact hself
  | startIf p =>
    simp only [applyOp, start_interface]
    split <;> exact hself
  | stopIf p =>
    simp only [applyOp, stop_interface]
    split <;> exact hself
  | startRouter => exact hself
  | stopRouter => exact hself

/-- The self entry survives any sequence of operations none of which adds the
router itself as a neighbor; the router's name never changes either. -/
theorem applyOps_self (ops : List Op) :
    ∀ r : Router,
      r.routing_table r.name = some (0, r.name) →
      (∀ n p c, Op.addNeighbor n p c ∈ ops → n ≠ r.name) →
      (applyOps r ops).name = r.name ∧
        (applyOps r ops).routing_table r.name = some (0, r.name) := by
  induction ops with
  | nil => intro r h _; exact ⟨rfl, h⟩
  | cons op rest ih =>
    intro r hself hops
    have hname : (applyOp r op).name = r.name := applyOp_name r op
    have hself' : (applyOp r op).routing_table r.name = some (0, r.name) :=
      applyOp_self r op (fun n p c heq => hops n p c (heq ▸ List.mem_cons_self _ _)) hself
    have hself'' : (applyOp r op).routing_table (applyOp r op).name
        = some (0, (applyOp r op).name) := by
      rw [hname]; exact hself'
    have hops' : ∀ n p c, Op.addNeighbor n p c ∈ rest → n ≠ (applyOp r op).name := by
      rw [hname]
      exact fun n p c hm => hops n p c (List.mem_cons_of_mem _ hm)
    rcases ih (applyOp r op) hself'' hops' with ⟨h1, h2⟩
    refine ⟨?_, ?_⟩
    · show (applyOps (applyOp r op) rest).name = r.name
      rw [h1, hname]
    · show (applyOps (applyOp r op) rest).routing_table r.name = some (0, r.name)
      rw [← hname]
      exact h2

/-! ### Claim theorems -/

/-- Helper: a message from a known neighbor is merged with the stored link
cost. -/
theorem receive_known (r : Router) (s : String) (T : NTable) (nb : Nat × Nat)
    (h : dictGet r.neighbors s = some nb) :
    receive_routing_table r (some ⟨s, T⟩)
      = { r with routing_table := (update_routing_table nb.2 s T r.routing_table).2 } := by
  simp [receive_routing_table, h]

/-- Claim C1: merging a received neighbor table into a router whose table has
no entry for destination `D`, where the sending neighbor `s` has stored link
cost `L` and advertises `D` at cost `c`, results in `table[D] = (L + c, s)`. -/
theorem merge_inserts_absent (r : Router) (s D x : String) (p L c : Nat) (T : NTable)
    (hs : dictGet r.neighbors s = some (p, L))
    (habs : r.routing_table D = none)
    (hmem : (D, (c, x)) ∈ T)
    (hnd : (T.map Prod.fst).Nodup) :
    (receive_routing_table r (some ⟨s, T⟩)).routing_table D = some (L + c, s) := by
  rw [receive_known r s T (p, L) hs]
  exact mergeLoop_insert L s T D c x (false, r.routing_table) habs hmem hnd

theorem merge_inserts_absent_witness :
    dictGet (mkRouter "A" 5000 [("B", (5020, 1))]).neighbors "B" = some (5020, 1) ∧
      (mkRouter "A" 5000 [("B", (5020, 1))]).routing_table "C" = none ∧
      ("C", (7, "B")) ∈ [("C", (7, "B"))] ∧
      ((([("C", (7, "B"))] : NTable).map Prod.fst).Nodup) ∧
      (receive_routing_table (mkRouter "A" 5000 [("B", (5020, 1))])
          (some ⟨"B", [("C", (7, "B"))]⟩)).routing_table "C" = some (1 + 7, "B") :=
  ⟨by decide, by decide, by decide, by decide,
    merge_inserts_absent (mkRouter "A" 5000 [("B", (5020, 1))]) "B" "C" "B" 5020 1 7
      [("C", (7, "B"))] (by decide) (by decide) (by decide) (by decide)⟩

/-- Claim C2, counterexample: `add_neighbor` called with the router's own name
overwrites the self entry, so the invariant `table[E.id] = (0, E.id)` does not
survive arbitrary `addNeighbor` calls. -/
theorem self_add_overwrites_self_route :
    (applyOps (mkRouter "A" 5000 []) [Op.addNeighbor "A" 5020 5]).routing_table "A"
      ≠ some (0, "A") ∧
      (applyOps (mkRouter "A" 5000 []) [Op.addNeighbor "A" 5020 5]).routing_table "A"
        = some (5, "A") := by decide

/-- Claim C2, amended: for every engine and every sequence of operations
(merges, interface toggles, lifecycle calls, and `addNeighbor` calls whose
peer is not the engine itself), the routing table still maps the engine's own
identifier to `(0, id)`; in particular no merge ever overwrites the self
entry. -/
theorem self_route_invariant (name : String) (port : Nat)
    (nbrs : List (String × (Nat × Nat))) (ops : List Op)
    (hops : ∀ n p c, Op.addNeighbor n p c ∈ ops → n ≠ name) :
    (applyOps (mkRouter name port nbrs) ops).routing_table name = some (0, name) := by
  have hinit : (mkRouter name port nbrs).routing_table (mkRouter name port nbrs).name
      = some (0, (mkRouter name port nbrs).name) := by
    show tableSet (fun _ => none) name (0, name) name = some (0, name)
    exact tableSet_self _ _ _
  exact (applyOps_self ops (mkRouter name port nbrs) hinit hops).2

theorem self_route_invariant_witness :
    (∀ n p c, Op.addNeighbor n p c ∈
        [Op.addNeighbor "B" 5020 5, Op.startIf 5020,
         Op.recv (some ⟨"B", [("C", (1, "C")), ("B", (0, "B"))]⟩), Op.stopRouter] →
        n ≠ "A") ∧
      (applyOps (mkRouter "A" 5000 [("B", (5020, 1))])
          [Op.addNeighbor "B" 5020 5, Op.startIf 5020,
           Op.recv (some ⟨"B", [("C", (1, "C")), ("B", (0, "B"))]⟩),
           Op.stopRouter]).routing_table "A" = some (0, "A") := by
  have h : ∀ n p c, Op.addNeighbor n p c ∈
      [Op.addNeighbor "B" 5020 5, Op.startIf 5020,
       Op.recv (some ⟨"B", [("C", (1, "C")), ("B", (0, "B"))]⟩), Op.stopRouter] →
      n ≠ "A" := by
    intro n p c hm
    simp only [List.mem_cons, List.not_mem_nil, or_false] at hm
    rcases hm with h | h | h | h
    · injection h with hn hp hc
      subst hn
      decide
    · exact Op.noConfusion h
    · exact Op.noConfusion h
    · exact Op.noConfusion h
  exact ⟨h, self_route_invariant "A" 5000 [("B", (5020, 1))] _ h⟩

/-- Claim C3: a merge never removes a destination entry and never increases an
existing destination's cost. -/
theorem merge_monotone (L : Nat) (n : String) (T : NTable) (t : RTable) (d nh : String)
    (c : Nat) (hcur : t d = some (c, nh)) :
    ∃ c' nh', (update_routing_table L n T t).2 d = some (c', nh') ∧ c' ≤ c := by
  rcases mergeLoop_evolution L n T d (false, t) with h | ⟨c', hc', hdec⟩
  · exact ⟨c, nh, h.trans hcur, le_refl c⟩
  · exact ⟨c', n, hc', le_of_lt (hdec (c, nh) hcur)⟩

theorem merge_monotone_witness :
    ((fun x : String => if x = "B" then some (3, "A") else none) "B" = some (3, "A")) ∧
      ∃ c' nh', (update_routing_table 1 "X" [("B", (9, "X"))]
          (fun x : String => if x = "B" then some (3, "A") else none)).2 "B"
          = some (c', nh') ∧ c' ≤ 3 :=
  ⟨by decide,
    merge_monotone 1 "X" [("B", (9, "X"))]
      (fun x : String => if x = "B" then some (3, "A") else none) "B" "A" 3 (by decide)⟩

/-- Claim C4: when the candidate cost `L + c₀` exactly equals the current cost
of destination `D`, the existing `(cost, nextHop)` pair is retained unchanged:
the update rule replaces only on strict improvement. -/
theorem merge_tie_keeps_entry (L : Nat) (n : String) (T : NTable) (t : RTable)
    (D x nh : String) (c c₀ : Nat) (hcur : t D = some (c, nh))
    (hmem : (D, (c₀, x)) ∈ T) (hnd : (T.map Prod.fst).Nodup) (htie : L + c₀ = c) :
    (update_routing_table L n T t).2 D = some (c, nh) :=
  mergeLoop_tie L n T D x nh c c₀ (false, t) hcur hmem hnd htie

theorem merge_tie_keeps_entry_witness :
    ((fun x : String => if x = "B" then some (3, "A") else none) "B" = some (3, "A")) ∧
      ("B", (2, "Q")) ∈ [("B", (2, "Q"))] ∧
      ((([("B", (2, "Q"))] : NTable).map Prod.fst).Nodup) ∧
      (1 + 2 = 3) ∧
      (update_routing_table 1 "Q" [("B", (2, "Q"))]
          (fun x : String => if x = "B" then some (3, "A") else none)).2 "B"
        = some (3, "A") :=
  ⟨by decide, by decide, by decide, by decide,
    merge_tie_keeps_entry 1 "Q" [("B", (2, "Q"))]
      (fun x : String => if x = "B" then some (3, "A") else none) "B" "Q" "A" 3 2
      (by decide) (by decide) (by decide) (by decide)⟩

/-- Claim C5: merging the identical neighbor table a second time reports
`updated = false` and returns the table unchanged. -/
theorem merge_idempotent (L : Nat) (n : String) (T : NTable) (t : RTable) :
    update_routing_table L n T (update_routing_table L n T t).2
      = (false, (update_routing_table L n T t).2) := by
  unfold update_routing_table
  apply mergeLoop_noop
  intro e he
  exact mergeLoop_upper L n T (false, t) e he

/-- Claim C6: within one loop cycle of a running engine no advertisement is
sent toward a peer whose interface is inactive, and the receive/merge step is
entirely independent of the interface state. -/
theorem interface_gating_send_only (r : Router) (inc : Option InMessage) (p : Nat)
    (ifs : List (Nat × Bool)) (hrun : r.running = true)
    (hinact : isInterfaceActive r p = false) :
    (∀ m ∈ (loop_cycle r inc).1, m.1 ≠ p) ∧
      receive_routing_table { r with interfaces := ifs } inc
        = { receive_routing_table r inc with interfaces := ifs } := by
  constructor
  · intro m hm
    rcases List.mem_filterMap.1 hm with ⟨e, _, heq⟩
    by_cases hact : (dictGet r.interfaces e.2.1).getD false = true
    · rw [if_pos hact] at heq
      cases heq
      intro hmp
      have hp : (dictGet r.interfaces p).getD false = true := by
        rw [← hmp]
        exact hact
      unfold isInterfaceActive at hinact
      rw [hp] at hinact
      cases hinact
    · rw [if_neg hact] at heq
      cases heq
  · cases inc with
    | none => rfl
    | some msg =>
      rcases Option.eq_none_or_eq_some (dictGet r.neighbors msg.sender) with h | ⟨nb, h⟩ <;>
        simp [receive_routing_table, h]

theorem interface_gating_send_only_witness :
    (start (mkRouter "A" 5000 [("B", (5020, 1))])).running = true ∧
      isInterfaceActive (start (mkRouter "A" 5000 [("B", (5020, 1))])) 5020 = false ∧
      ((∀ m ∈ (loop_cycle (start (mkRouter "A" 5000 [("B", (5020, 1))]))
            (some ⟨"B", [("C", (2, "B"))]⟩)).1, m.1 ≠ 5020) ∧
        receive_routing_table
            { start (mkRouter "A" 5000 [("B", (5020, 1))]) with interfaces := [(5020, true)] }
            (some ⟨"B", [("C", (2, "B"))]⟩)
          = { receive_routing_table (start (mkRouter "A" 5000 [("B", (5020, 1))]))
                (some ⟨"B", [("C", (2, "B"))]⟩) with interfaces := [(5020, true)] }) :=
  ⟨by decide, by decide,
    interface_gating_send_only (start (mkRouter "A" 5000 [("B", (5020, 1))]))
      (some ⟨"B", [("C", (2, "B"))]⟩) 5020 [(5020, true)] (by decide) (by decide)⟩

/-- Claim C7, counterexample: a strictly cheaper entry `(1, "D")` for the peer
already exists, yet `add_neighbor` re-seeds the routing-table entry to
`(5, "D")` anyway — the seeding is not guarded by "only if not already
cheaper". -/
theorem addNeighbor_overwrites_cheaper :
    (add_neighbor (mkRouter "A" 5000 []) "D" 9000 1).routing_table "D" = some (1, "D") ∧
      (1 : Nat) < 5 ∧
      (add_neighbor (add_neighbor (mkRouter "A" 5000 []) "D" 9000 1) "D" 9000 5).routing_table "D"
        = some (5, "D") := by decide

/-- Claim C7, amended: `add_neighbor` adds the neighbor link, adds an inactive
interface entry for the peer port, and unconditionally sets
`table[peerId] = (cost, peerId)`, even when a strictly cheaper entry exists;
on an engine with no neighbors, `addNeighbor(D, port, 5)` yields
`table[D] = (5, D)` and `isInterfaceActive(port) = false`. -/
theorem addNeighbor_seeds_unconditionally (nm D : String) (pt p : Nat) (r : Router)
    (c : Nat) :
    (add_neighbor (mkRouter nm pt []) D p 5).routing_table D = some (5, D) ∧
      isInterfaceActive (add_neighbor (mkRouter nm pt []) D p 5) p = false ∧
      (add_neighbor r D p c).routing_table D = some (c, D) := by
  refine ⟨tableSet_self _ _ _, ?_, tableSet_self _ _ _⟩
  have h : dictGet (add_neighbor (mkRouter nm pt []) D p 5).interfaces p = some false :=
    dictGet_dictSet_self _ _ _
  simp [isInterfaceActive, h]

/-- Claim C8: a message whose sender is not among the neighbor links is
discarded without any effect: the `KeyError` raised by the neighbor lookup is
caught before any table mutation, and the whole router state is unchanged. -/
theorem unknown_sender_discarded (r : Router) (s : String) (T : NTable)
    (h : dictGet r.neighbors s = none) :
    receive_routing_table r (some ⟨s, T⟩) = r ∧
      (receive_routing_table r (some ⟨s, T⟩)).routing_table = r.routing_table := by
  have he : receive_routing_table r (some ⟨s, T⟩) = r := by
    simp [receive_routing_table, h]
  exact ⟨he, by rw [he]⟩

theorem unknown_sender_discarded_witness :
    dictGet (mkRouter "A" 5000 [("B", (5020, 1))]).neighbors "Z" = none ∧
      (receive_routing_table (mkRouter "A" 5000 [("B", (5020, 1))])
          (some ⟨"Z", [("C", (3, "Z"))]⟩) = mkRouter "A" 5000 [("B", (5020, 1))] ∧
        (receive_routing_table (mkRouter "A" 5000 [("B", (5020, 1))])
            (some ⟨"Z", [("C", (3, "Z"))]⟩)).routing_table
          = (mkRouter "A" 5000 [("B", (5020, 1))]).routing_table) :=
  ⟨by decide,
    unknown_sender_discarded (mkRouter "A" 5000 [("B", (5020, 1))]) "Z"
      [("C", (3, "Z"))] (by decide)⟩

/-- Claim C9, counterexample: on an already-running engine (`running = true`,
one loop thread alive) a second `start()` call spawns another loop thread —
`threading.Thread(target=run, daemon=True).start()` is unconditional. -/
theorem start_spawns_second_loop :
    (start (mkRouter "A" 5000 [])).running = true ∧
      (start (mkRouter "A" 5000 [])).threads = 1 ∧
      (start (start (mkRouter "A" 5000 []))).threads = 2 := by decide

/-- Claim C9, amended: `start()` sets `running` to true (so on an
already-running engine `running` stays true and all other fields are
unchanged) but it always spawns one more periodic loop thread, also when the
engine is already running. -/
theorem start_always_spawns (r : Router) :
    (start r).running = true ∧ (start r).threads = r.threads + 1 ∧
      (start r).routing_table = r.routing_table ∧
      (start r).neighbors = r.neighbors ∧
      (start r).interfaces = r.interfaces ∧
      (start r).reporting = r.reporting ∧
      (start r).name = r.name :=
  ⟨rfl, rfl, rfl, rfl, rfl, rfl, rfl⟩

/-- Claim C10: after `add_neighbor(n, p, c)` the neighbor dict maps `n` to
`(p, c)`, the routing table maps `n` to `(c, n)` and the interface dict maps
`p` to `False`, unconditionally — re-adding an existing neighbor overwrites
its route and cost and deactivates its interface. -/
theorem addNeighbor_overwrite_behavior (r : Router) (n : String) (p c : Nat) :
    dictGet (add_neighbor r n p c).neighbors n = some (p, c) ∧
      (add_neighbor r n p c).routing_table n = some (c, n) ∧
      dictGet (add_neighbor r n p c).interfaces p = some false :=
  ⟨dictGet_dictSet_self _ _ _, tableSet_self _ _ _, dictGet_dictSet_self _ _ _⟩
